import Mathlib

/-!
Verification of the agent runtime core (packages/core/src/runtime.ts together
with the knowledge module appended to it) against its natural-language
specification.  All definitions below are shallow embeddings of the
TypeScript source: pure functions are translated directly, stateful code is
modelled by explicit state passing, external collaborators (store, embedding
provider, content loader, text generation) are taken as function-typed
parameters, and JavaScript runtime details (`||` falsiness, `replace` of the
first occurrence only, regex scanning) are reproduced faithfully.
-/

/-! ## Character helpers (JavaScript string semantics, ASCII fragment) -/

/-- The backtick character, written via its code point. -/
def backtick : Char := Char.ofNat 96

/-- JavaScript `\s` on the ASCII range: space, tab, newline, carriage return,
vertical tab, form feed. -/
def isJsSpace (c : Char) : Bool :=
  c == ' ' || c == '\t' || c == '\n' || c == '\r' ||
  c == Char.ofNat 11 || c == Char.ofNat 12

/-- Negation of `isJsSpace`, the class `[^\s]`. -/
def jsNotSpace (c : Char) : Bool := !(isJsSpace c)

/-- ASCII decimal digit, JavaScript `\d`. -/
def isJsDigit (c : Char) : Bool := '0' ≤ c && c ≤ '9'

/-- ASCII letter or digit, the class `[a-zA-Z0-9]`. -/
def isAsciiAlnum (c : Char) : Bool :=
  ('a' ≤ c && c ≤ 'z') || ('A' ≤ c && c ≤ 'Z') || ('0' ≤ c && c ≤ '9')

/-- JavaScript `toLowerCase` restricted to the ASCII range. -/
def jsLowerChar (c : Char) : Char :=
  if 'A' ≤ c && c ≤ 'Z' then Char.ofNat (c.toNat + 32) else c

/-- Lower-case every character of a string (ASCII), `s.toLowerCase()`. -/
def jsToLower (s : String) : String := String.mk (s.data.map jsLowerChar)

/-- Drop a literal prefix, returning the remainder when the prefix is present. -/
def stripPrefixChars : List Char → List Char → Option (List Char)
  | [], cs => some cs
  | _ :: _, [] => none
  | a :: p, b :: cs => if a == b then stripPrefixChars p cs else none

/-! ## The `preprocess` pipeline (knowledge module, runtime.ts lines 1730-1773)

Each regex replacement of the source is embedded as a left-to-right scanner
over the character list, with a fuel argument (always instantiated with the
list length plus one; every recursive call consumes at least one character of
input, so the fuel never runs out). -/

/-- Does the list start with three backticks? -/
def isTripleTick : List Char → Bool
  | a :: b :: c :: _ => a == backtick && b == backtick && c == backtick
  | _ => false

/-- Drop through the first occurrence of three backticks, returning what
follows it. -/
def dropThroughTripleTick : List Char → Option (List Char)
  | [] => none
  | c :: rest =>
    if isTripleTick (c :: rest) then some (rest.drop 2)
    else dropThroughTripleTick rest

/-- Replacement of fenced code blocks: the global regex that removes a
backtick triple, a minimal run of arbitrary characters, and a closing
backtick triple. -/
def stripFencedCode : Nat → List Char → List Char
  | 0, cs => cs
  | _ + 1, [] => []
  | fuel + 1, c :: rest =>
    if isTripleTick (c :: rest) then
      match dropThroughTripleTick (rest.drop 2) with
      | some rest2 => stripFencedCode fuel rest2
      | none => c :: stripFencedCode fuel rest
    else c :: stripFencedCode fuel rest

/-- Drop through the next backtick on the current line; `.` in the source
regex does not cross a newline. -/
def dropThroughTickSameLine : List Char → Option (List Char)
  | [] => none
  | c :: rest =>
    if c == backtick then some rest
    else if c == '\n' then none
    else dropThroughTickSameLine rest

/-- Replacement of inline code: a backtick, a minimal non-newline run, and a
closing backtick are removed. -/
def stripInlineCode : Nat → List Char → List Char
  | 0, cs => cs
  | _ + 1, [] => []
  | fuel + 1, c :: rest =>
    if c == backtick then
      match dropThroughTickSameLine rest with
      | some rest2 => stripInlineCode fuel rest2
      | none => c :: stripInlineCode fuel rest
    else c :: stripInlineCode fuel rest

/-- Replacement of markdown headers: one to six hash characters and the
following whitespace run are removed, the captured rest of the line is kept
verbatim (the regex engine does not rescan the captured group). -/
def stripHeaders : Nat → List Char → List Char
  | 0, cs => cs
  | _ + 1, [] => []
  | fuel + 1, c :: rest =>
    if c == '#' then
      let hashes := (c :: rest).takeWhile (fun x => x == '#')
      let afterHash := (c :: rest).drop (min hashes.length 6)
      let afterWs := afterHash.dropWhile isJsSpace
      let captured := afterWs.takeWhile (fun x => x != '\n')
      captured ++ stripHeaders fuel (afterWs.drop captured.length)
    else c :: stripHeaders fuel rest

/-- Scan for the first close-bracket immediately followed by an open
parenthesis on the current line, splitting off the characters before it. -/
def splitAtCloseBracketParen : List Char → Option (List Char × List Char)
  | [] => none
  | [_] => none
  | a :: b :: rest =>
    if a == ']' && b == '(' then some ([], rest)
    else if a == '\n' then none
    else (splitAtCloseBracketParen (b :: rest)).map (fun p => (a :: p.1, p.2))

/-- Drop through the first close parenthesis on the current line. -/
def splitAtCloseParenSameLine : List Char → Option (List Char)
  | [] => none
  | a :: rest =>
    if a == ')' then some rest
    else if a == '\n' then none
    else splitAtCloseParenSameLine rest

/-- Replacement of image links: the alt text between the brackets is kept,
the rest of the construct is removed. -/
def stripImageLinks : Nat → List Char → List Char
  | 0, cs => cs
  | _ + 1, [] => []
  | fuel + 1, c :: rest =>
    match rest with
    | b :: rest2 =>
      if c == '!' && b == '[' then
        match splitAtCloseBracketParen rest2 with
        | some (alt, afterOpen) =>
          match splitAtCloseParenSameLine afterOpen with
          | some rest3 => alt ++ stripImageLinks fuel rest3
          | none => c :: stripImageLinks fuel rest
        | none => c :: stripImageLinks fuel rest
      else c :: stripImageLinks fuel rest
    | [] => [c]

/-- Replacement of markdown links: the link text between the brackets is
kept, the rest of the construct is removed. -/
def stripLinks : Nat → List Char → List Char
  | 0, cs => cs
  | _ + 1, [] => []
  | fuel + 1, c :: rest =>
    if c == '[' then
      match splitAtCloseBracketParen rest with
      | some (txt, afterOpen) =>
        match splitAtCloseParenSameLine afterOpen with
        | some rest3 => txt ++ stripLinks fuel rest3
        | none => c :: stripLinks fuel rest
      | none => c :: stripLinks fuel rest
    else c :: stripLinks fuel rest

/-- Does the non-space run contain a dot with at least one character before
it and one after it?  This is exactly when the greedy core of the URL regex
matches the run. -/
def hasDotBeforeLast : List Char → Bool
  | [] => false
  | [_] => false
  | a :: b :: rest => a == '.' || hasDotBeforeLast (b :: rest)

/-- Core of the URL regex applied at a position: the maximal non-space run
must contain an inner dot; the capture is the whole run. -/
def urlCoreAt (t : List Char) : Option (List Char × List Char) :=
  let run := t.takeWhile jsNotSpace
  match run with
  | [] => none
  | _ :: t' => if hasDotBeforeLast t' then some (run, t.drop run.length) else none

/-- URL regex with the optional `www.` prefix: the prefixed alternative is
preferred, falling back to the bare core. -/
def urlWithWwwAt (t : List Char) : Option (List Char × List Char) :=
  match stripPrefixChars "www.".data t with
  | some r =>
    match urlCoreAt r with
    | some x => some x
    | none => urlCoreAt t
  | none => urlCoreAt t

/-- Full URL regex at a position: optional protocol, optional `www.`, then
the dotted core; the capture (protocol and `www.` stripped) replaces the
whole match. -/
def urlMatchAt (cs : List Char) : Option (List Char × List Char) :=
  let afterProto : Option (List Char) :=
    match stripPrefixChars "https://".data cs with
    | some r => some r
    | none => stripPrefixChars "http://".data cs
  match afterProto with
  | some r =>
    match urlWithWwwAt r with
    | some x => some x
    | none => urlWithWwwAt cs
  | none => urlWithWwwAt cs

/-- Replacement pass simplifying URLs to their domain-plus-path capture. -/
def stripURLs : Nat → List Char → List Char
  | 0, cs => cs
  | _ + 1, [] => []
  | fuel + 1, c :: rest =>
    match urlMatchAt (c :: rest) with
    | some (rep, after) => rep ++ stripURLs fuel after
    | none => c :: stripURLs fuel rest

/-- Replacement of Discord mentions: an at-sign in angle brackets with an
optional bang or ampersand and a digit run. -/
def stripMentions : Nat → List Char → List Char
  | 0, cs => cs
  | _ + 1, [] => []
  | fuel + 1, c :: rest =>
    let noMatch := fun (_ : Unit) => c :: stripMentions fuel rest
    if c == '<' then
      match rest with
      | b :: rest2 =>
        if b == '@' then
          let afterOpt :=
            match rest2 with
            | x :: xs => if x == '!' || x == '&' then xs else rest2
            | [] => rest2
          let digits := afterOpt.takeWhile isJsDigit
          let afterDigits := afterOpt.drop digits.length
          match digits, afterDigits with
          | _ :: _, g :: rest3 =>
            if g == '>' then stripMentions fuel rest3 else noMatch ()
          | _, _ => noMatch ()
        else noMatch ()
      | [] => noMatch ()
    else noMatch ()

/-- Drop through the first closing angle bracket. -/
def dropThroughGt : List Char → Option (List Char)
  | [] => none
  | a :: rest => if a == '>' then some rest else dropThroughGt rest

/-- Replacement of HTML tags: an open angle bracket through the next close
angle bracket. -/
def stripHtmlTags : Nat → List Char → List Char
  | 0, cs => cs
  | _ + 1, [] => []
  | fuel + 1, c :: rest =>
    if c == '<' then
      match dropThroughGt rest with
      | some rest2 => stripHtmlTags fuel rest2
      | none => c :: stripHtmlTags fuel rest
    else c :: stripHtmlTags fuel rest

/-- Characters accepted by the horizontal-rule class. -/
def isRuleChar (c : Char) : Bool := c == '-' || c == '*' || c == '_'

/-- Split a whitespace run just before its last newline (the backtracked end
of the greedy trailing whitespace of the horizontal-rule regex). -/
def splitBeforeLastNewline : List Char → Option (List Char × List Char)
  | [] => none
  | a :: rest =>
    match splitBeforeLastNewline rest with
    | some (b, f) => some (a :: b, f)
    | none => if a == '\n' then some ([], a :: rest) else none

/-- Replacement of horizontal rules under the multiline flag: at a line
start, greedy whitespace, three or more rule characters and trailing
whitespace up to a line end are removed.  The boolean tracks whether the
current position follows a newline. -/
def stripHRules : Bool → Nat → List Char → List Char
  | _, 0, cs => cs
  | _, _ + 1, [] => []
  | atLineStart, fuel + 1, c :: restAll =>
    if atLineStart then
      let cs := c :: restAll
      let w := cs.takeWhile isJsSpace
      let afterW := cs.drop w.length
      let r := afterW.takeWhile isRuleChar
      let afterR := afterW.drop r.length
      if 3 ≤ r.length then
        let t := afterR.takeWhile isJsSpace
        let afterT := afterR.drop t.length
        if afterT.isEmpty then
          []
        else
          match splitBeforeLastNewline t with
          | some (before, fromNl) =>
            let prevNl := match before.getLast? with
              | some ch => ch == '\n'
              | none => false
            stripHRules prevNl fuel fromNl
          | none => c :: stripHRules (c == '\n') fuel restAll
      else c :: stripHRules (c == '\n') fuel restAll
    else c :: stripHRules (c == '\n') fuel restAll

/-- Drop through the first close of a block comment. -/
def dropThroughStarSlash : List Char → Option (List Char)
  | [] => none
  | [_] => none
  | a :: b :: rest =>
    if a == '*' && b == '/' then some rest
    else dropThroughStarSlash (b :: rest)

/-- Replacement of block comments: slash-star through the next star-slash. -/
def stripBlockComments : Nat → List Char → List Char
  | 0, cs => cs
  | _ + 1, [] => []
  | fuel + 1, c :: rest =>
    match rest with
    | b :: rest2 =>
      if c == '/' && b == '*' then
        match dropThroughStarSlash rest2 with
        | some rest3 => stripBlockComments fuel rest3
        | none => c :: stripBlockComments fuel rest
      else c :: stripBlockComments fuel rest
    | [] => [c]

/-- Replacement of line comments: a double slash and the rest of the line. -/
def stripLineComments : Nat → List Char → List Char
  | 0, cs => cs
  | _ + 1, [] => []
  | fuel + 1, c :: rest =>
    match rest with
    | b :: rest2 =>
      if c == '/' && b == '/' then
        stripLineComments fuel (rest2.dropWhile (fun x => x != '\n'))
      else c :: stripLineComments fuel rest
    | [] => [c]

/-- Replacement of every whitespace run by a single space. -/
def collapseWhitespace : Nat → List Char → List Char
  | 0, cs => cs
  | _ + 1, [] => []
  | fuel + 1, c :: rest =>
    if isJsSpace c then ' ' :: collapseWhitespace fuel (rest.dropWhile isJsSpace)
    else c :: collapseWhitespace fuel rest

/-- Replacement of three or more newlines by exactly two. -/
def squeezeNewlines : Nat → List Char → List Char
  | 0, cs => cs
  | _ + 1, [] => []
  | fuel + 1, c :: rest =>
    if c == '\n' then
      let run := (c :: rest).takeWhile (fun x => x == '\n')
      let after := (c :: rest).drop run.length
      if 3 ≤ run.length then '\n' :: '\n' :: squeezeNewlines fuel after
      else run ++ squeezeNewlines fuel after
    else c :: squeezeNewlines fuel rest

/-- The character class kept by the final filter: alphanumerics, whitespace
and the punctuation common in URLs. -/
def isKeptChar (c : Char) : Bool :=
  isAsciiAlnum c || isJsSpace c || c == '-' || c == '_' || c == '.' ||
  c == '/' || c == ':' || c == '?' || c == '=' || c == '&'

/-- JavaScript `trim` on the ASCII fragment. -/
def jsTrim (cs : List Char) : List Char :=
  ((cs.dropWhile isJsSpace).reverse.dropWhile isJsSpace).reverse

/-- Run one fuel-indexed pass with enough fuel for its input. -/
def runPass (f : Nat → List Char → List Char) (cs : List Char) : List Char :=
  f (cs.length + 1) cs

/-- The full preprocessing pipeline on a character list, in the order of the
source: fenced code, inline code, headers, image links, links, URLs,
mentions, HTML tags, horizontal rules, block comments, line comments,
whitespace collapse, newline squeeze, character filter, trim, lower-case. -/
def preprocessChars (cs0 : List Char) : List Char :=
  let cs := runPass stripFencedCode cs0
  let cs := runPass stripInlineCode cs
  let cs := runPass stripHeaders cs
  let cs := runPass stripImageLinks cs
  let cs := runPass stripLinks cs
  let cs := runPass stripURLs cs
  let cs := runPass stripMentions cs
  let cs := runPass stripHtmlTags cs
  let cs := runPass (stripHRules true) cs
  let cs := runPass stripBlockComments cs
  let cs := runPass stripLineComments cs
  let cs := runPass collapseWhitespace cs
  let cs := runPass squeezeNewlines cs
  let cs := cs.filter isKeptChar
  (jsTrim cs).map jsLowerChar

/-- A JavaScript value passed to `preprocess`: a string, `null` or
`undefined` (the source guards on `!content || typeof content !== "string"`). -/
inductive JsTextInput where
  | str (s : String)
  | nullValue
  | undefinedValue
deriving DecidableEq

/-- The exported `preprocess` function: empty, null and undefined inputs
return the empty string immediately; otherwise the pipeline runs. -/
def preprocess (input : JsTextInput) : String :=
  match input with
  | .nullValue => ""
  | .undefinedValue => ""
  | .str s => if s == "" then "" else String.mk (preprocessChars s.data)

/-! ## Knowledge engine (knowledge module: `get`, `set`; runtime.ts lines
1645-1728)

External collaborators (the embedding cache, the content loader, the
similarity search) are function-typed parameters; a call that may throw is
typed with `Except Unit`.  Embedding vectors are opaque to the logic and
modelled as integer lists. -/

/-- Content of a knowledge item or memory record: text, optional source tag,
optional embedding vector. -/
structure KContent where
  text : String
  source : Option String
  embedding : Option (List Int)
deriving DecidableEq, Repr

/-- A knowledge item as submitted to `set` or returned by `get`. -/
structure KnowledgeItem where
  id : String
  agentId : String
  content : KContent
  createdAt : Int
deriving DecidableEq, Repr

/-- The memory record handed to `createMemory` by `set`. -/
structure MemRecord where
  id : String
  userId : String
  agentId : String
  roomId : String
  content : KContent
  createdAt : Int
deriving DecidableEq, Repr

/-- A row returned by `getCachedEmbeddings`. -/
structure CRow where
  embedding : List Int
deriving DecidableEq, Repr

/-- Modelled from the spec: `MemoryManager.createMemory` (memory.ts is not
under src/).  Section 3 states that a memory id is unique per store and
section 4.2 that persistence targets a partition keyed by the item's id, with
re-submission a silent no-op once a record with that id exists; insertion
into the id-keyed partition therefore leaves an existing record with the same
id in place. -/
def createMemoryKeyed (store : List MemRecord) (r : MemRecord) : List MemRecord :=
  if store.any (fun m => m.id == r.id) then store else store ++ [r]

/-- Result of one `set` call: the record passed to `createMemory`, the
resulting partition, and counters for the external work performed (calls to
`getCachedEmbeddings`, and existence probes via `getMemoryById`, of which
`set` makes none). -/
structure SetResult where
  record : MemRecord
  store : List MemRecord
  embedCalls : Nat
  probes : Nat
deriving DecidableEq, Repr

/-- Build the record persisted by `set`: the source fixes `userId` to the
runtime's agent id and reuses the agent id as `roomId`. -/
def mkSetResult (agentId : String) (store : List MemRecord)
    (item : KnowledgeItem) (embedCalls : Nat) : SetResult :=
  let r : MemRecord :=
    { id := item.id, userId := agentId, agentId := item.agentId,
      roomId := agentId, content := item.content, createdAt := item.createdAt }
  { record := r, store := createMemoryKeyed store r,
    embedCalls := embedCalls, probes := 0 }

/-- Embedding step of `set`: when the content carries no embedding, the
cached-embedding provider is consulted (a throw propagates, because `set`
logs and rethrows); a non-empty row list supplies the embedding, an empty
one leaves it absent. -/
def knowledgeSetEmbed (agentId : String)
    (embedFn : String → Except Unit (List CRow))
    (store : List MemRecord) (item : KnowledgeItem) : Except Unit SetResult :=
  match item.content.embedding with
  | some _ => .ok (mkSetResult agentId store item 0)
  | none =>
    match embedFn item.content.text with
    | .error e => .error e
    | .ok rows =>
      let item2 := match rows with
        | [] => item
        | r :: _ => { item with content := { item.content with embedding := some r.embedding } }
      .ok (mkSetResult agentId store item2 1)

/-- Truthiness of the `item.content.source && !item.content.text` guard. -/
def needsLoad (c : KContent) : Bool :=
  (match c.source with
   | some s => s != ""
   | none => false) && c.text == ""

/-- The `set` entry point of the knowledge module: optional lazy content
loading, embedding computation, then persistence keyed by the item's id into
the fragments partition.  There is no existence probe anywhere in `set`. -/
def knowledgeSet (agentId : String)
    (loadFn : KContent → Except Unit KContent)
    (embedFn : String → Except Unit (List CRow))
    (store : List MemRecord) (item : KnowledgeItem) : Except Unit SetResult :=
  if needsLoad item.content then
    match loadFn item.content with
    | .error e => .error e
    | .ok c => knowledgeSetEmbed agentId embedFn store { item with content := c }
  else knowledgeSetEmbed agentId embedFn store item

/-- Options accepted by `get` (`SearchOptions`). -/
structure KSearchOptions where
  roomId : String
  match_threshold : Option ℚ
  count : Option Nat
  unique : Option Bool
deriving DecidableEq, Repr

/-- The default options of `get`: only the room is set, to the agent's own
room. -/
def defaultKnowledgeOptions (agentId : String) : KSearchOptions :=
  { roomId := agentId, match_threshold := none, count := none, unique := none }

/-- Parameters passed to `searchMemoriesByEmbedding`. -/
structure SearchParams where
  match_threshold : ℚ
  count : Nat
  roomId : String
  unique : Option Bool
deriving DecidableEq, Repr

/-- Build the search parameters from the options, reproducing the JavaScript
`||` defaults of the source (`options.match_threshold || 0.7`,
`options.count || 5`): an absent or zero value falls back to the default. -/
def buildSearchParams (opts : KSearchOptions) : SearchParams :=
  { match_threshold :=
      (match opts.match_threshold with
       | none => 7/10
       | some t => if t = 0 then 7/10 else t),
    count :=
      (match opts.count with
       | none => 5
       | some c => if c = 0 then 5 else c),
    roomId := opts.roomId,
    unique := opts.unique }

/-- A fragment row as returned by the similarity search; id and timestamp may
be absent. -/
structure FragmentRow where
  id : Option String
  agentId : String
  content : KContent
  createdAt : Option Int
deriving DecidableEq, Repr

/-- Placeholder for the fresh v4 UUID drawn when a fragment row has no id;
its value never matters to any property proved here. -/
def v4Placeholder : String := "00000000-0000-4000-8000-000000000000"

/-- Mapping of a search result row back into a knowledge item (`get`'s result
mapping, with the embedding vector carried over and defaults for missing id
and timestamp). -/
def fragToKnowledgeItem (now : Int) (m : FragmentRow) : KnowledgeItem :=
  { id := m.id.getD v4Placeholder,
    agentId := m.agentId,
    content := m.content,
    createdAt := m.createdAt.getD now }

/-- The `get` entry point of the knowledge module.  The whole body of the
source sits in one try/catch that converts any thrown error into an empty
result; an absent or empty cached-embedding list also yields an empty
result before the search is attempted. -/
def knowledgeGet (now : Int)
    (embRes : Except Unit (List CRow))
    (searchFn : List Int → SearchParams → Except Unit (List FragmentRow))
    (opts : KSearchOptions) : List KnowledgeItem :=
  match embRes with
  | .error _ => []
  | .ok [] => []
  | .ok (row :: _) =>
    match searchFn row.embedding (buildSearchParams opts) with
    | .error _ => []
    | .ok mems => mems.map (fragToKnowledgeItem now)

/-! ## Capability registry (runtime.ts: `registerAction`,
`registerEvaluator`, `registerService`, `registerMemoryManager`) -/

/-- An action descriptor: name, alias list ("similes"), and whether a handler
is attached. -/
structure ActionD where
  name : String
  similes : List String
  hasHandler : Bool
deriving DecidableEq, Repr

/-- An evaluator descriptor: name, handler presence, the `alwaysRun` flag and
the outcome its `validate` returns for the turn under consideration. -/
structure EvaluatorD where
  name : String
  hasHandler : Bool
  alwaysRun : Bool
  validateResult : Bool
deriving DecidableEq, Repr

/-- A service descriptor, identified by its service type. -/
structure ServiceD where
  serviceType : String
deriving DecidableEq, Repr

/-- A memory manager descriptor, identified by its table name. -/
structure MemoryManagerD where
  tableName : String
deriving DecidableEq, Repr

/-- The mutable capability registries of the runtime. -/
structure Registry where
  actions : List ActionD
  evaluators : List EvaluatorD
  services : List ServiceD
  memoryManagers : List MemoryManagerD
deriving DecidableEq, Repr

/-- The empty registry. -/
def emptyRegistry : Registry :=
  { actions := [], evaluators := [], services := [], memoryManagers := [] }

/-- `registerAction` pushes unconditionally: the source performs no
duplicate check on the action name. -/
def registerAction (r : Registry) (a : ActionD) : Registry :=
  { r with actions := r.actions ++ [a] }

/-- `registerEvaluator` pushes unconditionally: the source performs no
duplicate check on the evaluator name. -/
def registerEvaluator (r : Registry) (e : EvaluatorD) : Registry :=
  { r with evaluators := r.evaluators ++ [e] }

/-- `registerService` skips (with a warning, reported as the boolean) when a
service of the same type is already present, and otherwise adds the service
to the map. -/
def registerService (r : Registry) (s : ServiceD) : Registry × Bool :=
  if r.services.any (fun t => t.serviceType == s.serviceType) then (r, true)
  else ({ r with services := r.services ++ [s] }, false)

/-- `registerMemoryManager` throws when the table name is missing, skips
with a warning when the table name is already registered, and otherwise adds
the manager to the map. -/
def registerMemoryManager (r : Registry) (m : MemoryManagerD) :
    Except String (Registry × Bool) :=
  if m.tableName == "" then .error "Memory manager must have a tableName"
  else if r.memoryManagers.any (fun t => t.tableName == m.tableName) then .ok (r, true)
  else .ok ({ r with memoryManagers := r.memoryManagers ++ [m] }, false)

/-- Count the services registered under a given type. -/
def countServices (r : Registry) (ty : String) : Nat :=
  (r.services.filter (fun t => t.serviceType == ty)).length

/-- Count the memory managers registered under a given table name. -/
def countManagers (r : Registry) (tn : String) : Nat :=
  (r.memoryManagers.filter (fun t => t.tableName == tn)).length

/-- Count the actions registered under a given name. -/
def countActions (r : Registry) (n : String) : Nat :=
  (r.actions.filter (fun t => t.name == n)).length

/-- Count the evaluators registered under a given name. -/
def countEvaluators (r : Registry) (n : String) : Nat :=
  (r.evaluators.filter (fun t => t.name == n)).length

/-! ## Action resolution (`processActions`, runtime.ts lines 807-881) -/

/-- JavaScript `replace("_", "")`: only the first underscore is removed. -/
def removeFirstUnderscore : List Char → List Char
  | [] => []
  | c :: rest => if c == '_' then rest else c :: removeFirstUnderscore rest

/-- The normalization the source applies to action labels, names and
similes: `.toLowerCase().replace("_", "")`. -/
def normalizeAction (s : String) : String :=
  String.mk (removeFirstUnderscore (jsToLower s).data)

/-- JavaScript substring test `hay.includes(needle)`. -/
def strIncludes (hay needle : String) : Bool :=
  go hay.data needle.data
where
  go : List Char → List Char → Bool
    | hay, needle =>
      if needle.isPrefixOf hay then true
      else match hay with
        | [] => false
        | _ :: t => go t needle

/-- The bidirectional exact/substring test against a registered action's
name. -/
def nameMatches (norm : String) (a : ActionD) : Bool :=
  strIncludes (normalizeAction a.name) norm || strIncludes norm (normalizeAction a.name)

/-- The bidirectional exact/substring test against an action's similes. -/
def simileMatches (norm : String) (a : ActionD) : Bool :=
  a.similes.any (fun s =>
    strIncludes (normalizeAction s) norm || strIncludes norm (normalizeAction s))

/-- First registered action whose name matches the normalized label. -/
def findActionByName (actions : List ActionD) (norm : String) : Option ActionD :=
  actions.find? (nameMatches norm)

/-- First registered action with a matching simile (fallback scan). -/
def findActionBySimile (actions : List ActionD) (norm : String) : Option ActionD :=
  actions.find? (simileMatches norm)

/-- Resolution of a proposed label: name match first, simile fallback only
when no name matched. -/
def resolveAction (actions : List ActionD) (label : String) : Option ActionD :=
  let norm := normalizeAction label
  match findActionByName actions norm with
  | some a => some a
  | none => findActionBySimile actions norm

/-- Outcome of one iteration of the `processActions` response loop. -/
inductive ActionOutcome where
  | noContent
  | noMatch (label : String)
  | noHandler (a : ActionD)
  | executed (a : ActionD)
deriving DecidableEq, Repr

/-- One iteration of `processActions` for a response, given the action label
carried by its content (absent or empty is falsy and skipped up front); an
unmatched label is skipped with a logged diagnostic, a matched action
without handler is skipped, otherwise the handler runs error-isolated. -/
def processActionStep (actions : List ActionD) (respAction : Option String) :
    ActionOutcome :=
  match respAction with
  | none => .noContent
  | some label =>
    if label == "" then .noContent
    else match resolveAction actions label with
      | none => .noMatch label
      | some a => if a.hasHandler then .executed a else .noHandler a

/-- The normalization the claim describes, for comparison with the one the
source implements: lower-casing and removal of every underscore. -/
def specNormalizeAction (s : String) : String :=
  String.mk ((jsToLower s).data.filter (fun c => c != '_'))

/-! ## Evaluator pipeline (`evaluate`, runtime.ts lines 891-954) -/

/-- Trace of one `evaluate` run: which evaluators had `validate` invoked,
which became candidates, whether the generation collaborator was consulted,
and which evaluators had their handler executed. -/
structure EvalTrace where
  validated : List EvaluatorD
  candidates : List EvaluatorD
  generationCalled : Bool
  executed : List EvaluatorD
deriving DecidableEq, Repr

/-- The evaluators whose `validate` is invoked: a missing handler returns
null before anything else, then the gate `!didRespond && !evaluator.alwaysRun`
returns null before `validate` is reached. -/
def evalValidated (didRespond : Bool) (evs : List EvaluatorD) : List EvaluatorD :=
  evs.filter (fun e => e.hasHandler && (didRespond || e.alwaysRun))

/-- The candidates: validated evaluators whose `validate` returned true. -/
def evalCandidates (didRespond : Bool) (evs : List EvaluatorD) : List EvaluatorD :=
  (evalValidated didRespond evs).filter (fun e => e.validateResult)

/-- The evaluators whose handler the execution loop runs, given the
generation collaborator's parsed output (`none` models a null parse): the
loop walks the full evaluator list and runs every evaluator whose name the
selection contains and that has a handler. -/
def evalExecuted (evs : List EvaluatorD) (selection : Option (List String)) :
    List EvaluatorD :=
  evs.filter (fun e =>
    (match selection with
     | none => false
     | some sel => sel.contains e.name) && e.hasHandler)

/-- The `evaluate` pipeline: validation, early return when no candidate
passed (no generation call, nothing executed), otherwise selection by the
generation collaborator and error-isolated execution. -/
def runEvaluate (didRespond : Bool) (evs : List EvaluatorD)
    (selection : Option (List String)) : EvalTrace :=
  if (evalCandidates didRespond evs).isEmpty then
    { validated := evalValidated didRespond evs,
      candidates := evalCandidates didRespond evs,
      generationCalled := false, executed := [] }
  else
    { validated := evalValidated didRespond evs,
      candidates := evalCandidates didRespond evs,
      generationCalled := true, executed := evalExecuted evs selection }

/-! ## Attachment visibility window (`composeState`, runtime.ts lines
1116-1143) -/

/-- An attachment; only the fields the window logic touches are modelled. -/
structure AttachmentM where
  id : String
  text : String
deriving DecidableEq, Repr

/-- A recent message as seen by the window logic: its timestamp and its
attachments.  The gathered list is ordered most-recent-first by the store
contract. -/
structure RecentMsg where
  createdAt : Int
  attachments : List AttachmentM
deriving DecidableEq, Repr

/-- The redaction marker written into out-of-window attachment text. -/
def hiddenMarker : String := "[Hidden]"

/-- Redaction of a single message against the reference timestamp: messages
strictly older than one hour (3600000 ms) before the reference have every
attachment's text replaced by the marker; messages at or after the bound are
untouched. -/
def redactMsg (refTime : Int) (m : RecentMsg) : RecentMsg :=
  if refTime - 3600000 ≤ m.createdAt then m
  else { m with attachments := m.attachments.map (fun a => { a with text := hiddenMarker }) }

/-- The attachment visibility window of `composeState`: the first gathered
message carrying attachments (the most recent, as the list is
recent-first) is the reference; when none exists nothing is redacted. -/
def applyAttachmentWindow (msgs : List RecentMsg) : List RecentMsg :=
  match msgs.find? (fun m => !m.attachments.isEmpty) with
  | none => msgs
  | some ref => msgs.map (redactMsg ref.createdAt)

/-! ## Concrete instances used by counterexamples and witnesses -/

/-- Number of records in a partition carrying a given id. -/
def countById (store : List MemRecord) (i : String) : Nat :=
  (store.filter (fun m => m.id == i)).length

/-- A plain-text knowledge item with no precomputed embedding. -/
def c1Item : KnowledgeItem :=
  { id := "sky-blue", agentId := "agent",
    content := { text := "The sky is blue", source := none, embedding := none },
    createdAt := 0 }

/-- A content loader that returns the content unchanged. -/
def c1Load : KContent → Except Unit KContent := fun c => .ok c

/-- An embedding provider that always returns one cached row. -/
def c1Embed : String → Except Unit (List CRow) := fun _ => .ok [{ embedding := [1] }]

/-- First ingestion of the item into an empty fragments partition. -/
def c1First : Except Unit SetResult := knowledgeSet "agent" c1Load c1Embed [] c1Item

/-- Second ingestion of the identical item into the resulting partition. -/
def c1Second : Except Unit SetResult :=
  match c1First with
  | .error e => .error e
  | .ok r => knowledgeSet "agent" c1Load c1Embed r.store c1Item

/-- A sample action used for the duplicate-registration counterexample. -/
def c3Action : ActionD := { name := "CONTINUE", similes := [], hasHandler := true }

/-- A sample evaluator used for the duplicate-registration counterexample. -/
def c3Evaluator : EvaluatorD :=
  { name := "GET_FACTS", hasHandler := true, alwaysRun := false, validateResult := true }

/-- An action whose name contains two underscores. -/
def c4Action : ActionD := { name := "FOO_BAR_BAZ", similes := [], hasHandler := true }

/-- A gated evaluator: handler present, `alwaysRun` false, validate true. -/
def c6A : EvaluatorD :=
  { name := "a", hasHandler := true, alwaysRun := false, validateResult := true }

/-- An always-run evaluator with a handler. -/
def c6B : EvaluatorD :=
  { name := "b", hasHandler := true, alwaysRun := true, validateResult := true }

/-- An always-run evaluator without a handler. -/
def c6C : EvaluatorD :=
  { name := "c", hasHandler := false, alwaysRun := true, validateResult := true }

/-- Messages for the attachment-window witness: a recent message with an
attachment and a much older one. -/
def c7New : RecentMsg := { createdAt := 10000000, attachments := [{ id := "a1", text := "hello" }] }

/-- The older message, more than one hour before the reference. -/
def c7Old : RecentMsg := { createdAt := 1000, attachments := [{ id := "a2", text := "old text" }] }

/-- The gathered recent-first message list for the attachment-window witness. -/
def c7Msgs : List RecentMsg := [c7New, c7Old]

/-- The result of the first concrete ingestion, written out. -/
def c10Res : SetResult :=
  mkSetResult "agent" [] { c1Item with content := { c1Item.content with embedding := some [1] } } 1

/-! ## Supporting lemmas -/

/-- Inserting a record whose id is not yet present puts exactly one record
with that id into the keyed partition. -/
lemma countById_fresh (store : List MemRecord) (r : MemRecord)
    (h : countById store r.id = 0) :
    countById (createMemoryKeyed store r) r.id = 1 := by
  have hany : store.any (fun m => m.id == r.id) = false := by
    rw [countById, List.length_eq_zero, List.filter_eq_nil_iff] at h
    rw [List.any_eq_false]
    exact h
  rw [createMemoryKeyed, if_neg (by simp [hany])]
  rw [countById, List.filter_append, List.length_append]
  have h0 : (store.filter (fun m => m.id == r.id)).length = 0 := h
  simp [h0]

/-- Inserting a record whose id is already present leaves the keyed
partition unchanged. -/
lemma createMemoryKeyed_present (store : List MemRecord) (r : MemRecord)
    (h : 0 < countById store r.id) :
    createMemoryKeyed store r = store := by
  have hany : store.any (fun m => m.id == r.id) = true := by
    rw [countById] at h
    rw [List.any_eq_true]
    obtain ⟨x, hx⟩ := List.exists_mem_of_length_pos h
    have hx2 := List.mem_filter.mp hx
    exact ⟨x, hx2.1, hx2.2⟩
  rw [createMemoryKeyed, if_pos hany]

/-- An embedding-free item with a successful provider call runs the
embedding step exactly once and persists a record with the item's id. -/
lemma knowledgeSetEmbed_spec (agentId : String)
    (embedFn : String → Except Unit (List CRow))
    (store : List MemRecord) (item : KnowledgeItem) (rows : List CRow)
    (hemb : item.content.embedding = none)
    (hfn : embedFn item.content.text = .ok rows) :
    ∃ item2 : KnowledgeItem, item2.id = item.id ∧
      knowledgeSetEmbed agentId embedFn store item = .ok (mkSetResult agentId store item2 1) := by
  rw [knowledgeSetEmbed, hemb, hfn]
  cases rows with
  | nil => exact ⟨item, rfl, rfl⟩
  | cons r rest =>
    exact ⟨{ item with content := { item.content with embedding := some r.embedding } }, rfl, rfl⟩

/-- Every successful run of the embedding-and-persist step stores the agent
id in both the `userId` and `roomId` fields of the created record. -/
lemma knowledgeSetEmbed_ok (agentId : String)
    (embedFn : String → Except Unit (List CRow))
    (store : List MemRecord) (item : KnowledgeItem) (res : SetResult)
    (h : knowledgeSetEmbed agentId embedFn store item = .ok res) :
    res.record.userId = agentId ∧ res.record.roomId = agentId := by
  rw [knowledgeSetEmbed] at h
  split at h
  · injection h with h2
    subst h2
    exact ⟨rfl, rfl⟩
  · split at h
    · exact absurd h (by simp)
    · split at h <;> (injection h with h2; subst h2; exact ⟨rfl, rfl⟩)

/-! ## Claim theorems -/

/-- C1, counterexample to the claim as stated: running `knowledge.set` twice
with the identical item (same text, hence same id) over an initially empty
fragments partition leaves exactly one persisted record, but the second call
performs embedding work (one `getCachedEmbeddings` call) while making zero
existence probes — no probe precedes the embedding work, because `set`
contains no probe at all (the only probe in the ingestion path sits in
`processCharacterKnowledge` and queries the documents partition, which
ingestion never writes). -/
theorem C1_set_reembeds_without_probe :
    (c1Second.map (fun r => (countById r.store "sky-blue", r.embedCalls, r.probes))) =
      .ok (1, 1, 0) := by
  rfl

/-- C1, amended: calling `knowledge.set` twice with a knowledge item of
identical text content (hence the same id) results in exactly one persisted
record, because the fragments partition is keyed by id — but not because of
any existence probe: the second call makes zero probes and recomputes the
embedding. -/
theorem C1_set_idempotent_store_only (agentId : String)
    (loadFn : KContent → Except Unit KContent)
    (embedFn : String → Except Unit (List CRow))
    (store : List MemRecord) (item : KnowledgeItem) (rows : List CRow)
    (htext : item.content.text ≠ "")
    (hemb : item.content.embedding = none)
    (hfn : embedFn item.content.text = .ok rows)
    (hfresh : countById store item.id = 0) :
    ∃ r1 r2, knowledgeSet agentId loadFn embedFn store item = .ok r1 ∧
      knowledgeSet agentId loadFn embedFn r1.store item = .ok r2 ∧
      countById r1.store item.id = 1 ∧ countById r2.store item.id = 1 ∧
      r1.embedCalls = 1 ∧ r2.embedCalls = 1 ∧ r1.probes = 0 ∧ r2.probes = 0 := by
  have hload : needsLoad item.content = false := by
    rw [needsLoad]
    simp [htext]
  obtain ⟨item2, hid2, hrun⟩ := knowledgeSetEmbed_spec agentId embedFn store item rows hemb hfn
  have hset1 : knowledgeSet agentId loadFn embedFn store item =
      .ok (mkSetResult agentId store item2 1) := by
    rw [knowledgeSet, if_neg (by simp [hload])]
    exact hrun
  have hrid : (mkSetResult agentId store item2 1).record.id = item.id := hid2
  have hcount1 : countById (mkSetResult agentId store item2 1).store item.id = 1 := by
    rw [← hrid]
    refine countById_fresh store _ ?_
    show countById store item2.id = 0
    rw [hid2]
    exact hfresh
  obtain ⟨item2b, hid2b, hrunb⟩ :=
    knowledgeSetEmbed_spec agentId embedFn (mkSetResult agentId store item2 1).store item rows hemb hfn
  have hset2 : knowledgeSet agentId loadFn embedFn (mkSetResult agentId store item2 1).store item =
      .ok (mkSetResult agentId (mkSetResult agentId store item2 1).store item2b 1) := by
    rw [knowledgeSet, if_neg (by simp [hload])]
    exact hrunb
  have hcount2 : countById
      (mkSetResult agentId (mkSetResult agentId store item2 1).store item2b 1).store item.id = 1 := by
    have hpres : createMemoryKeyed (mkSetResult agentId store item2 1).store
        (mkSetResult agentId (mkSetResult agentId store item2 1).store item2b 1).record =
        (mkSetResult agentId store item2 1).store := by
      apply createMemoryKeyed_present
      show 0 < countById (mkSetResult agentId store item2 1).store item2b.id
      rw [hid2b, hcount1]
      exact Nat.one_pos
    show countById (createMemoryKeyed (mkSetResult agentId store item2 1).store
      (mkSetResult agentId (mkSetResult agentId store item2 1).store item2b 1).record) item.id = 1
    rw [hpres]
    exact hcount1
  exact ⟨_, _, hset1, hset2, hcount1, hcount2, rfl, rfl, rfl, rfl⟩

/-- C1, witness: the amended theorem applied to the concrete item, loader and
embedding provider of the counterexample over an empty partition. -/
theorem C1_set_idempotent_store_only_witness :
    ∃ r1 r2, knowledgeSet "agent" c1Load c1Embed [] c1Item = .ok r1 ∧
      knowledgeSet "agent" c1Load c1Embed r1.store c1Item = .ok r2 ∧
      countById r1.store c1Item.id = 1 ∧ countById r2.store c1Item.id = 1 ∧
      r1.embedCalls = 1 ∧ r2.embedCalls = 1 ∧ r1.probes = 0 ∧ r2.probes = 0 :=
  C1_set_idempotent_store_only "agent" c1Load c1Embed [] c1Item [{ embedding := [1] }]
    (by decide) rfl rfl rfl

/-- C2, code bug: the similarity search launched by `knowledge.get` with no
caller-supplied options uses a match threshold of 0.7, not the 0.1 required
by the spec and asserted by the repository's own tests
(knowledge.test.ts expects `match_threshold: 0.1` for an option-less call);
a caller-supplied non-zero threshold does override the default. -/
theorem C2_default_threshold_is_high :
    (buildSearchParams (defaultKnowledgeOptions "agent")).match_threshold = 7/10 ∧
    (buildSearchParams (defaultKnowledgeOptions "agent")).match_threshold ≠ 1/10 ∧
    (buildSearchParams { roomId := "agent", match_threshold := some (1/10), count := none, unique := none }).match_threshold = 1/10 := by
  refine ⟨rfl, ?_, ?_⟩
  · norm_num [buildSearchParams, defaultKnowledgeOptions]
  · norm_num [buildSearchParams]

/-- C3, counterexample to the claim as stated: registering the same action
twice leaves two entries under its name in the action registry, and likewise
for evaluators — the skip-on-duplicate law does not hold for those two
registration operations. -/
theorem C3_actions_and_evaluators_duplicate :
    countActions (registerAction (registerAction emptyRegistry c3Action) c3Action)
      "CONTINUE" = 2 ∧
    countEvaluators (registerEvaluator (registerEvaluator emptyRegistry c3Evaluator)
      c3Evaluator) "GET_FACTS" = 2 := by
  decide

/-- C3, amended: duplicate registration is skipped with a warning and no
exception for services (by service type) and for memory managers with a
non-empty table name (by table name), leaving exactly one entry; action and
evaluator registration push unconditionally, so a repeated name yields a
second entry. -/
theorem C3_registration_skip_partial (r : Registry) (s : ServiceD)
    (m : MemoryManagerD) (a : ActionD) (e : EvaluatorD)
    (hs : countServices r s.serviceType = 0)
    (hm : countManagers r m.tableName = 0)
    (htn : m.tableName ≠ "") :
    (registerService r s).2 = false ∧
    (registerService (registerService r s).1 s).1 = (registerService r s).1 ∧
    (registerService (registerService r s).1 s).2 = true ∧
    countServices (registerService (registerService r s).1 s).1 s.serviceType = 1 ∧
    (∃ r1 r2, registerMemoryManager r m = .ok (r1, false) ∧
      registerMemoryManager r1 m = .ok (r2, true) ∧ r2 = r1 ∧
      countManagers r2 m.tableName = 1) ∧
    (registerAction r a).actions = r.actions ++ [a] ∧
    (registerEvaluator r e).evaluators = r.evaluators ++ [e] := by
  have hnos : r.services.any (fun t => t.serviceType == s.serviceType) = false := by
    rw [countServices, List.length_eq_zero, List.filter_eq_nil_iff] at hs
    rw [List.any_eq_false]
    intro x hx
    exact hs x hx
  have hnom : r.memoryManagers.any (fun t => t.tableName == m.tableName) = false := by
    rw [countManagers, List.length_eq_zero, List.filter_eq_nil_iff] at hm
    rw [List.any_eq_false]
    intro x hx
    exact hm x hx
  have h1 : registerService r s = ({ r with services := r.services ++ [s] }, false) := by
    rw [registerService, if_neg (by simp [hnos])]
  have hyes : ({ r with services := r.services ++ [s] } : Registry).services.any
      (fun t => t.serviceType == s.serviceType) = true := by
    simp
  have h2 : registerService ({ r with services := r.services ++ [s] } : Registry) s =
      ({ r with services := r.services ++ [s] }, true) := by
    rw [registerService, if_pos hyes]
  refine ⟨by rw [h1], ?_, ?_, ?_, ?_, rfl, rfl⟩
  · rw [h1]; simp only; rw [h2]
  · rw [h1]; simp only; rw [h2]
  · rw [h1]; simp only; rw [h2]
    simp only
    rw [countServices, List.filter_append, List.length_append]
    have h0 : (r.services.filter (fun t => t.serviceType == s.serviceType)).length = 0 := hs
    simp [h0]
  · have hm1 : registerMemoryManager r m =
        .ok ({ r with memoryManagers := r.memoryManagers ++ [m] }, false) := by
      rw [registerMemoryManager, if_neg (by simpa using htn), if_neg (by simp [hnom])]
    have hm2 : registerMemoryManager
        ({ r with memoryManagers := r.memoryManagers ++ [m] } : Registry) m =
        .ok ({ r with memoryManagers := r.memoryManagers ++ [m] }, true) := by
      rw [registerMemoryManager, if_neg (by simpa using htn), if_pos (by simp)]
    refine ⟨_, _, hm1, hm2, rfl, ?_⟩
    rw [countManagers]
    simp only
    rw [List.filter_append, List.length_append]
    have h0 : (r.memoryManagers.filter (fun t => t.tableName == m.tableName)).length = 0 := hm
    simp [h0]

/-- C3, witness: the amended theorem applied to the empty registry with a
concrete service, memory manager, action and evaluator. -/
theorem C3_registration_skip_partial_witness :
    (registerService emptyRegistry { serviceType := "speech_generation" }).2 = false ∧
    (registerService (registerService emptyRegistry { serviceType := "speech_generation" }).1
      { serviceType := "speech_generation" }).1 =
      (registerService emptyRegistry { serviceType := "speech_generation" }).1 ∧
    (registerService (registerService emptyRegistry { serviceType := "speech_generation" }).1
      { serviceType := "speech_generation" }).2 = true ∧
    countServices (registerService (registerService emptyRegistry
      { serviceType := "speech_generation" }).1 { serviceType := "speech_generation" }).1
      "speech_generation" = 1 ∧
    (∃ r1 r2, registerMemoryManager emptyRegistry { tableName := "memories" } = .ok (r1, false) ∧
      registerMemoryManager r1 { tableName := "memories" } = .ok (r2, true) ∧ r2 = r1 ∧
      countManagers r2 "memories" = 1) ∧
    (registerAction emptyRegistry c3Action).actions = emptyRegistry.actions ++ [c3Action] ∧
    (registerEvaluator emptyRegistry c3Evaluator).evaluators =
      emptyRegistry.evaluators ++ [c3Evaluator] :=
  C3_registration_skip_partial emptyRegistry { serviceType := "speech_generation" }
    { tableName := "memories" } c3Action c3Evaluator rfl rfl (by decide)

/-- C4, counterexample to the claim as stated: under the normalization the
claim describes (lower-casing and removing every underscore) the label
FOOBARBAZ matches the registered name FOO_BAR_BAZ, yet the source — whose
`replace` removes only the first underscore — resolves nothing for that
label and skips it. -/
theorem C4_normalization_first_underscore_only :
    strIncludes (specNormalizeAction "FOO_BAR_BAZ") (specNormalizeAction "FOOBARBAZ") = true ∧
    resolveAction [c4Action] "FOOBARBAZ" = none ∧
    processActionStep [c4Action] (some "FOOBARBAZ") = .noMatch "FOOBARBAZ" := by
  decide

/-- C4, amended: with normalization by lower-casing and removal of the first
underscore only, whenever any registered action's name matches the
normalized label (bidirectional substring test) the resolver returns a
name-matching action — name matches take precedence over similes; when no
name matches, resolution equals the simile fallback scan (first hit wins);
and a label resolving to nothing produces the skip outcome with a logged
diagnostic rather than an error. -/
theorem C4_resolution_order (actions : List ActionD) (label : String) :
    (∀ a ∈ actions, nameMatches (normalizeAction label) a = true →
      ∃ c, resolveAction actions label = some c ∧
        nameMatches (normalizeAction label) c = true) ∧
    ((∀ a ∈ actions, nameMatches (normalizeAction label) a = false) →
      resolveAction actions label = findActionBySimile actions (normalizeAction label)) ∧
    (label ≠ "" → resolveAction actions label = none →
      processActionStep actions (some label) = .noMatch label) := by
  refine ⟨?_, ?_, ?_⟩
  · intro a ha hm
    have hsome : (findActionByName actions (normalizeAction label)).isSome := by
      rw [findActionByName, List.find?_isSome]
      exact ⟨a, ha, hm⟩
    obtain ⟨c, hc⟩ := Option.isSome_iff_exists.mp hsome
    refine ⟨c, ?_, List.find?_some hc⟩
    rw [resolveAction]
    simp only [hc]
  · intro hall
    have hnone : findActionByName actions (normalizeAction label) = none := by
      rw [findActionByName, List.find?_eq_none]
      intro x hx
      simp [hall x hx]
    rw [resolveAction]
    simp only [hnone]
  · intro hne hnone
    rw [processActionStep]
    rw [if_neg (by simpa using hne), hnone]

/-- C4, witness: the amended theorem applied to a one-action registry and a
label that matches the action name after normalization. -/
theorem C4_resolution_order_witness :
    ∃ c, resolveAction [{ name := "CONTINUE", similes := ["ELABORATE"], hasHandler := true }]
      "CONTINUE" = some c ∧
      nameMatches (normalizeAction "CONTINUE") c = true :=
  (C4_resolution_order [{ name := "CONTINUE", similes := ["ELABORATE"], hasHandler := true }]
    "CONTINUE").1 { name := "CONTINUE", similes := ["ELABORATE"], hasHandler := true }
    (by decide) (by decide)

/-- C5, confirmed: `knowledge.get` never propagates an error — a throwing or
empty cached-embedding lookup yields the empty result before any search, a
throwing similarity search is caught and converted to the empty result, and
a successful search maps the rows into knowledge items. -/
theorem C5_get_never_propagates (now : Int) (embRes : Except Unit (List CRow))
    (searchFn : List Int → SearchParams → Except Unit (List FragmentRow))
    (opts : KSearchOptions) :
    (∀ e, embRes = .error e → knowledgeGet now embRes searchFn opts = []) ∧
    (embRes = .ok [] → knowledgeGet now embRes searchFn opts = []) ∧
    (∀ row rest, embRes = .ok (row :: rest) →
      searchFn row.embedding (buildSearchParams opts) = .error () →
      knowledgeGet now embRes searchFn opts = []) ∧
    (∀ row rest mems, embRes = .ok (row :: rest) →
      searchFn row.embedding (buildSearchParams opts) = .ok mems →
      knowledgeGet now embRes searchFn opts = mems.map (fragToKnowledgeItem now)) := by
  refine ⟨?_, ?_, ?_, ?_⟩
  · rintro e rfl; rfl
  · rintro rfl; rfl
  · rintro row rest rfl hs; simp [knowledgeGet, hs]
  · rintro row rest mems rfl hs; simp [knowledgeGet, hs]

/-- C5, witness: the theorem applied to a throwing embedding lookup and to a
throwing search, both yielding the empty result. -/
theorem C5_get_never_propagates_witness :
    knowledgeGet 0 (.error ()) (fun _ _ => .ok []) (defaultKnowledgeOptions "agent") = [] ∧
    knowledgeGet 0 (.ok [{ embedding := [1] }]) (fun _ _ => .error ())
      (defaultKnowledgeOptions "agent") = [] :=
  ⟨(C5_get_never_propagates 0 (.error ()) (fun _ _ => .ok [])
      (defaultKnowledgeOptions "agent")).1 () rfl,
   (C5_get_never_propagates 0 (.ok [{ embedding := [1] }]) (fun _ _ => .error ())
      (defaultKnowledgeOptions "agent")).2.2.1 { embedding := [1] } [] rfl rfl⟩

/-- C6, counterexample to the claim as stated: with didRespond false, the
gated evaluator a (alwaysRun false, handler present) still has its handler
executed because the generation collaborator's parsed output named it — the
execution loop filters the full evaluator list by the returned names without
restricting them to candidates; and the always-run evaluator c is never
validated because it has no handler, which is checked before the gate. -/
theorem C6_gating_violations :
    (runEvaluate false [c6A, c6B, c6C] (some ["a"])).executed = [c6A] ∧
    (runEvaluate false [c6A, c6B, c6C] (some ["a"])).validated = [c6B] := by
  decide

/-- C6, amended: for a turn with didRespond false, an evaluator with
alwaysRun false is never validated and never becomes a candidate, and its
handler is not executed provided evaluator names are distinct and the
selection returned by the generation phase names only candidates (an
adversarial selection can execute it otherwise); when no candidate passes
validation nothing at all is executed; and an evaluator that has a handler
and alwaysRun true has its validate invoked regardless of didRespond. -/
theorem C6_evaluator_gating (didRespond : Bool) (evs : List EvaluatorD)
    (sel : Option (List String)) (e : EvaluatorD) (he : e ∈ evs) :
    (didRespond = false → e.alwaysRun = false →
      e ∉ (runEvaluate didRespond evs sel).validated ∧
      e ∉ (runEvaluate didRespond evs sel).candidates ∧
      ((evs.map (fun x => x.name)).Nodup →
        (∀ l, sel = some l → ∀ n ∈ l,
          n ∈ (runEvaluate didRespond evs sel).candidates.map (fun x => x.name)) →
        e ∉ (runEvaluate didRespond evs sel).executed)) ∧
    ((runEvaluate didRespond evs sel).candidates = [] →
      (runEvaluate didRespond evs sel).executed = []) ∧
    (e.hasHandler = true → e.alwaysRun = true →
      e ∈ (runEvaluate didRespond evs sel).validated) := by
  have hval : (runEvaluate didRespond evs sel).validated = evalValidated didRespond evs := by
    unfold runEvaluate; split <;> rfl
  have hcand : (runEvaluate didRespond evs sel).candidates = evalCandidates didRespond evs := by
    unfold runEvaluate; split <;> rfl
  refine ⟨?_, ?_, ?_⟩
  · rintro rfl hAr
    have hv : e ∉ evalValidated false evs := by
      intro hmem
      have hp := (List.mem_filter.mp hmem).2
      simp [hAr] at hp
    have hc : e ∉ evalCandidates false evs := by
      intro hmem
      exact hv (List.mem_filter.mp hmem).1
    refine ⟨hval ▸ hv, hcand ▸ hc, ?_⟩
    intro hnd hsub hmem
    rw [runEvaluate] at hmem
    split at hmem
    · simp at hmem
    · have hpred := (List.mem_filter.mp hmem).2
      rw [Bool.and_eq_true] at hpred
      obtain ⟨hselp, hhand⟩ := hpred
      cases sel with
      | none => simp at hselp
      | some l =>
        have hselm : e.name ∈ l := by simpa using hselp
        have hn := hsub l rfl e.name hselm
        rw [hcand] at hn
        simp only [List.mem_map] at hn
        obtain ⟨c, hcmem, hcname⟩ := hn
        have hcev : c ∈ evs := (List.mem_filter.mp ((List.mem_filter.mp hcmem).1)).1
        have hce : c = e := List.inj_on_of_nodup_map hnd hcev he hcname
        subst hce
        exact hc hcmem
  · intro hempty
    rw [runEvaluate]
    rw [hcand] at hempty
    rw [if_pos (by simp [hempty])]
  · intro hh hAr
    rw [hval]
    exact List.mem_filter.mpr ⟨he, by simp [hh, hAr]⟩

/-- C6, witness: the amended theorem applied to the three concrete
evaluators with a selection that names only the candidate b. -/
theorem C6_evaluator_gating_witness :
    (c6A ∉ (runEvaluate false [c6A, c6B, c6C] (some ["b"])).validated ∧
      c6A ∉ (runEvaluate false [c6A, c6B, c6C] (some ["b"])).candidates ∧
      c6A ∉ (runEvaluate false [c6A, c6B, c6C] (some ["b"])).executed) ∧
    c6B ∈ (runEvaluate false [c6A, c6B, c6C] (some ["b"])).validated :=
  have h1 := (C6_evaluator_gating false [c6A, c6B, c6C] (some ["b"]) c6A
    (by decide)).1 rfl rfl
  have h2 := (C6_evaluator_gating false [c6A, c6B, c6C] (some ["b"]) c6B
    (by decide)).2.2 rfl rfl
  ⟨⟨h1.1, h1.2.1, h1.2.2 (by decide)
    (by intro l hl n hn; cases hl; revert n hn; decide)⟩, h2⟩

/-- C7, confirmed: in the attachment visibility window of composeState,
given the reference message (the first gathered message carrying
attachments, the most recent in the recent-first list) with timestamp T,
every attachment of a message with timestamp strictly below T minus
3600000 ms has its text replaced by the redaction marker, and every message
with timestamp at or after that bound is left entirely unchanged. -/
theorem C7_attachment_window (msgs : List RecentMsg) (ref : RecentMsg)
    (h : msgs.find? (fun m => !m.attachments.isEmpty) = some ref) :
    applyAttachmentWindow msgs = msgs.map (redactMsg ref.createdAt) ∧
    ∀ m ∈ msgs,
      (m.createdAt < ref.createdAt - 3600000 →
        ∀ a ∈ (redactMsg ref.createdAt m).attachments, a.text = hiddenMarker) ∧
      (ref.createdAt - 3600000 ≤ m.createdAt → redactMsg ref.createdAt m = m) := by
  constructor
  · simp [applyAttachmentWindow, h]
  · intro m _
    constructor
    · intro hm a ha
      rw [redactMsg, if_neg (by omega)] at ha
      simp only [List.mem_map] at ha
      obtain ⟨b, _, rfl⟩ := ha
      rfl
    · intro hm
      rw [redactMsg, if_pos hm]

/-- C7, witness: the theorem applied to a two-message list whose reference
carries an attachment; the hour-older message is redacted, the reference one
untouched. -/
theorem C7_attachment_window_witness :
    applyAttachmentWindow c7Msgs = c7Msgs.map (redactMsg 10000000) ∧
    (∀ a ∈ (redactMsg 10000000 c7Old).attachments, a.text = hiddenMarker) ∧
    redactMsg 10000000 c7New = c7New :=
  have h := C7_attachment_window c7Msgs c7New (by decide)
  ⟨h.1, (h.2 c7Old (by decide)).1 (by decide), (h.2 c7New (by decide)).2 (by decide)⟩

/-- C8, confirmed: preprocess is pure and total — the empty string, null and
undefined all yield the empty string without any failure, and the concrete
mixed code-block input of the spec yields exactly the specified output. -/
theorem C8_preprocess_pure_total :
    preprocess (.str "") = "" ∧ preprocess .nullValue = "" ∧
    preprocess .undefinedValue = "" ∧
    preprocess (.str "Here is some code: ```const x = 1;``` and `inline code`") =
      "here is some code: and" := by
  refine ⟨rfl, rfl, rfl, ?_⟩
  decide

/-- C9, confirmed: an evaluator without a handler is skipped before the gate
and the validation step — whatever didRespond and the generation selection
are, its validate is never invoked, it never becomes a candidate, and its
handler is never executed. -/
theorem C9_no_handler_skipped (didRespond : Bool) (evs : List EvaluatorD)
    (sel : Option (List String)) (e : EvaluatorD)
    (_he : e ∈ evs) (hh : e.hasHandler = false) :
    e ∉ (runEvaluate didRespond evs sel).validated ∧
    e ∉ (runEvaluate didRespond evs sel).candidates ∧
    e ∉ (runEvaluate didRespond evs sel).executed := by
  have hv : e ∉ evalValidated didRespond evs := by
    intro hmem
    have hp := (List.mem_filter.mp hmem).2
    simp [hh] at hp
  have hc : e ∉ evalCandidates didRespond evs := by
    intro hmem
    exact hv (List.mem_filter.mp hmem).1
  have hx : e ∉ evalExecuted evs sel := by
    intro hmem
    have hp := (List.mem_filter.mp hmem).2
    simp [hh] at hp
  unfold runEvaluate
  split
  · exact ⟨hv, hc, by simp⟩
  · exact ⟨hv, hc, hx⟩

/-- C9, witness: the theorem applied to the handler-less always-run
evaluator c, even with didRespond true and a selection naming it. -/
theorem C9_no_handler_skipped_witness :
    c6C ∉ (runEvaluate true [c6A, c6B, c6C] (some ["c"])).validated ∧
    c6C ∉ (runEvaluate true [c6A, c6B, c6C] (some ["c"])).candidates ∧
    c6C ∉ (runEvaluate true [c6A, c6B, c6C] (some ["c"])).executed :=
  C9_no_handler_skipped true [c6A, c6B, c6C] (some ["c"]) c6C (by decide) rfl

/-- C10, confirmed: every successful `knowledge.set` persists its record
with both userId and roomId equal to the runtime's agent id, regardless of
the fields on the submitted item, and that agent id is exactly the default
room that `knowledge.get` searches. -/
theorem C10_set_targets_agent_room (agentId : String)
    (loadFn : KContent → Except Unit KContent)
    (embedFn : String → Except Unit (List CRow))
    (store : List MemRecord) (item : KnowledgeItem) (res : SetResult)
    (h : knowledgeSet agentId loadFn embedFn store item = .ok res) :
    res.record.userId = agentId ∧ res.record.roomId = agentId ∧
    (defaultKnowledgeOptions agentId).roomId = agentId := by
  rw [knowledgeSet] at h
  split at h
  · split at h
    · exact absurd h (by simp)
    · obtain ⟨h1, h2⟩ := knowledgeSetEmbed_ok _ _ _ _ _ h
      exact ⟨h1, h2, rfl⟩
  · obtain ⟨h1, h2⟩ := knowledgeSetEmbed_ok _ _ _ _ _ h
    exact ⟨h1, h2, rfl⟩

/-- C10, witness: the theorem applied to the concrete ingestion, whose
computed result record indeed carries the agent id in both fields. -/
theorem C10_set_targets_agent_room_witness :
    c10Res.record.userId = "agent" ∧ c10Res.record.roomId = "agent" ∧
    (defaultKnowledgeOptions "agent").roomId = "agent" :=
  C10_set_targets_agent_room "agent" c1Load c1Embed [] c1Item c10Res rfl
